import Mathlib

/-!
# Verification of the `bim` terminal text editor core

Shallow embedding of the editing state machine of the `bim` editor
(`src/editor.rs`, `src/document.rs`, `src/terminal.rs`) and proofs about it.

Modelling conventions:
* Rust `String`s are modelled as `List Char`; byte/char index distinctions do
  not matter for the properties below, which quantify over such lists.
* `usize` arithmetic is modelled on `Nat`; where source code performs an
  unchecked `usize` subtraction that can underflow (a panic in the source),
  a checked variant (`usize_sub`, returning `Option`) is used so the panic
  region is explicit.
* The `Editor` record folds together the fields of `editor.rs`'s `Editor`,
  the terminal's stored cursor position and size (`terminal.rs`), and the
  open document's line list (`document.rs`).  `save_count` counts the
  invocations of `Document::save` (the file-system write itself is modelled
  by `save_output`, the exact character sequence written).
-/

namespace Bim

/-- Cursor position (`terminal.rs`, `struct Position`): `x` is the column
offset inside the current line, `y` the screen row. -/
structure Position where
  x : Nat
  y : Nat
deriving DecidableEq

/-- Editor state (`editor.rs`, `struct Editor`), with the terminal's stored
cursor position (`terminal.cursor_position`), terminal size, and the open
document's lines inlined.  `save_count` counts `Document::save` calls. -/
structure Editor where
  running : Bool
  options_mode : Bool
  scroll_position : Nat
  cursor : Position
  lines : List (List Char)
  save_count : Nat
  height : Nat
  width : Nat
deriving DecidableEq

/-- The subset of `termion::event::Key` values the editor dispatches on
(`editor.rs`, `process_input` / `process_options` / `arrow_move`);
`other` stands for every key hitting the `_ => ()` arms. -/
inductive Key where
  | char (c : Char)
  | backspace
  | up
  | down
  | left
  | right
  | pageUp
  | pageDown
  | home
  | endKey
  | esc
  | other
deriving DecidableEq

/-- `Editor::arrow_move` (`editor.rs` lines 206-245): cursor movement for
Up/Down/Left/Right/Home/End; PageUp/PageDown and anything else fall through
to the no-op arm.  `e.lines.getD i []` models the source's `lines[i]`
indexing (in-bounds in every theorem below, matching the panic-free region
of the source). -/
def arrow_move (e : Editor) (k : Key) : Editor :=
  let position := e.cursor
  match k with
  | Key.up =>
    -- if y > 0 { y -= 1 } else if y == 0 && scroll > 0 { scroll -= 1 }
    let ps : Position × Nat :=
      if position.y > 0 then ({ position with y := position.y - 1 }, e.scroll_position)
      else if position.y = 0 ∧ e.scroll_position > 0 then (position, e.scroll_position - 1)
      else (position, e.scroll_position)
    let p := ps.1
    let s := ps.2
    -- if x > lines[y + scroll].len() { x = lines[y + scroll].len() }
    let p :=
      if p.x > (e.lines.getD (p.y + s) []).length
      then { p with x := (e.lines.getD (p.y + s) []).length } else p
    { e with scroll_position := s, cursor := p }
  | Key.down =>
    let is_at_end_of_document := position.y + e.scroll_position + 1 = e.lines.length
    if ¬is_at_end_of_document ∧ position.y < e.height - 2 then
      let p := { position with y := position.y + 1 }
      let p :=
        if p.x > (e.lines.getD (p.y + e.scroll_position) []).length
        then { p with x := (e.lines.getD (p.y + e.scroll_position) []).length } else p
      { e with cursor := p }
    else if ¬is_at_end_of_document ∧ position.y = e.height - 2 then
      { e with scroll_position := e.scroll_position + 1 }
    else e
  | Key.left =>
    if position.x > 0 then { e with cursor := { position with x := position.x - 1 } } else e
  | Key.right =>
    if position.x < (e.lines.getD (position.y + e.scroll_position) []).length
    then { e with cursor := { position with x := position.x + 1 } } else e
  | Key.home => { e with cursor := { position with x := 0 } }
  | Key.endKey =>
    { e with cursor :=
        { position with x := (e.lines.getD (position.y + e.scroll_position) []).length } }
  | _ => e

/-- `Editor::process_input` (`editor.rs` lines 121-183): keystroke dispatch in
editing mode.  The Enter arm splits the current line at the cursor, the
Backspace arm deletes a character or merges lines, the generic character arm
inserts (`String::insert` modelled as `take ++ [c] ++ drop`). -/
def process_input (e : Editor) (k : Key) : Editor :=
  match k with
  | Key.char c =>
    if c = '\n' then
      -- Key::Char('\n'), lines 124-138
      let position := e.cursor
      let line := e.lines.getD (position.y + e.scroll_position) []
      let after_cursor := line.drop position.x        -- line.split_off(position.x)
      let line := line.take position.x                -- line.truncate(position.x)
      let lines :=
        List.insertIdx (position.y + e.scroll_position + 1) after_cursor
          (e.lines.set (position.y + e.scroll_position) line)
      if position.y + 1 > e.height - 2 then
        { e with lines := lines, scroll_position := e.scroll_position + 1,
                 cursor := { x := 0, y := position.y } }
      else
        { e with lines := lines, cursor := { x := 0, y := position.y + 1 } }
    else
      -- Key::Char(c), lines 162-169
      let position := e.cursor
      let line := e.lines.getD (position.y + e.scroll_position) []
      let line := line.take position.x ++ c :: line.drop position.x  -- line.insert(x, c)
      { e with lines := e.lines.set (position.y + e.scroll_position) line,
               cursor := { position with x := position.x + 1 } }
  | Key.backspace =>
    -- Key::Backspace, lines 139-161
    let position := e.cursor
    let line := e.lines.getD (position.y + e.scroll_position) []
    if position.x > 0 then
      let line := line.eraseIdx (position.x - 1)      -- line.remove(x - 1)
      { e with cursor := { position with x := position.x - 1 },
               lines := e.lines.set (position.y + e.scroll_position) line }
    else if position.y > 0 ∨ e.scroll_position > 0 then
      let prev_line := e.lines.getD (position.y + e.scroll_position - 1) []
      let scroll :=
        if e.scroll_position > 0 ∧ position.y = 0
        then e.scroll_position - 1 else e.scroll_position
      let prev_line_len := prev_line.length
      let merged := prev_line ++ line                 -- prev_line += &line
      let lines := e.lines.eraseIdx (position.y + scroll)
      let position : Position := { x := prev_line_len, y := position.y - 1 }
      let lines := lines.set (position.y + scroll) merged
      { e with scroll_position := scroll, cursor := position, lines := lines }
    else e
  | Key.up | Key.down | Key.left | Key.right
  | Key.pageUp | Key.pageDown | Key.home | Key.endKey => arrow_move e k
  | Key.esc => { e with options_mode := true }
  | Key.other => e

/-- `Editor::process_options` (`editor.rs` lines 186-203): keystroke dispatch
in options mode; a save is recorded by bumping `save_count`. -/
def process_options (e : Editor) (k : Key) : Editor :=
  match k with
  | Key.char c =>
    if c = 'q' then { e with running := false }
    else if c = 's' then
      { e with save_count := e.save_count + 1, options_mode := false }
    else if c = 'a' then
      { e with save_count := e.save_count + 1, options_mode := false, running := false }
    else e
  | Key.esc => { e with options_mode := false }
  | _ => e

/-- The character sequence `Document::save` (`document.rs` lines 39-50) writes,
as a function of the `first_line_written` flag threading the loop. -/
def save_loop : List (List Char) → Bool → List Char
  | [], _ => []
  | l :: ls, first_line_written =>
    (if first_line_written then ['\n'] else []) ++ l ++ save_loop ls true

/-- The full file content written by `Document::save` (flag starts `false`). -/
def save_output (lines : List (List Char)) : List Char :=
  save_loop lines false

/-- Modelled from the spec's words for comparison: the lines joined with a
single newline separator, with no trailing newline after the final line. -/
def join_newline_spec : List (List Char) → List Char
  | [] => []
  | [l] => l
  | l :: ls => l ++ '\n' :: join_newline_spec ls

/-- Splitting a character sequence at every `'\n'` (the separators are not
kept); always returns at least one (possibly empty) piece. -/
def split_on_nl : List Char → List (List Char)
  | [] => [[]]
  | c :: cs =>
    if c = '\n' then [] :: split_on_nl cs
    else
      match split_on_nl cs with
      | [] => [[c]]
      | p :: ps => (c :: p) :: ps

/-- Dropping one trailing carriage return, as Rust's `str::lines` does to a
piece that was terminated by `'\n'` (so that `"\r\n"` counts as one line
ending). -/
def strip_cr (l : List Char) : List Char :=
  if l.getLast? = some '\r' then l.dropLast else l

/-- Rust's `str::lines` on the file contents (used by `Document::from_file`,
`document.rs` line 25): split at `'\n'`; every piece that was terminated by a
`'\n'` loses a trailing `'\r'`; a final empty piece (file ending in `'\n'`)
yields no line; the empty string yields no lines. -/
def rust_lines (s : List Char) : List (List Char) :=
  let ps := split_on_nl s
  ps.dropLast.map strip_cr ++
    (match ps.getLast? with
     | some last => if last = [] then [] else [last]
     | none => [])

/-- `Document::from_file` (`document.rs` lines 20-36) as a function of whether
the path exists and of the file contents: read and split the file when it
exists, then guarantee at least one (empty) line. -/
def from_file_lines (path_exists : Bool) (contents : List Char) : List (List Char) :=
  let lines := if path_exists then rust_lines contents else []
  if lines = [] then [[]] else lines

/-- Checked `usize` subtraction: `some` exactly when the source's unchecked
`a - b` does not underflow. -/
def usize_sub (a b : Nat) : Option Nat :=
  if b ≤ a then some (a - b) else none

/-- The welcome-banner padding computation (`editor.rs` lines 98-104) with the
subtraction checked: `padding = width - message.len()` happens first, and only
afterwards the `padding > 0` guard halves it. -/
def welcome_padding_checked (ww : Nat) (msg : List Char) : Option Nat :=
  match usize_sub ww msg.length with
  | none => none
  | some padding => some (if padding > 0 then padding / 2 else padding)

/-- The characters the welcome-banner branch prints (`editor.rs` lines 97-105):
padding spaces (half the leftover width, only when the leftover is positive),
then the message, then `"\r"` (via `print!`, so no line feed). -/
def banner_emission (ww : Nat) (msg : List Char) : List Char :=
  let padding := ww - msg.length
  (if 0 < padding then List.replicate (padding / 2) ' ' else []) ++ msg ++ ['\r']

/-- Everything one iteration of the draw loop prints (`editor.rs` lines
86-108) for loop counter `i` under scroll offset `s`: the document line (all
`'\n'` removed) or the `'~'` filler, each followed by `"\r"` and the `'\n'` of
`println!`; then, when the document is a single empty line and the (scrolled)
row index is `height / 2 - 2`, additionally the banner emission. -/
def draw_row_output (lines : List (List Char)) (hh ww : Nat) (msg : List Char)
    (s i : Nat) : List Char :=
  let row_index := i + s
  (if row_index < lines.length
   then (lines.getD row_index []).filter (fun ch => ch ≠ '\n') ++ ['\r', '\n']
   else ['~', '\r', '\n']) ++
  (if (lines.length ≤ 1 ∧ (lines.getD 0 []).length = 0) ∧ row_index = hh / 2 - 2
   then banner_emission ww msg else [])

/-- One draw-loop iteration with the banner's width subtraction checked:
`none` exactly when the source iteration underflows (and so panics) in the
banner branch. -/
def draw_row_checked (lines : List (List Char)) (hh ww : Nat) (msg : List Char)
    (s i : Nat) : Option (List Char) :=
  let row_index := i + s
  if (lines.length ≤ 1 ∧ (lines.getD 0 []).length = 0) ∧ row_index = hh / 2 - 2 then
    match usize_sub ww msg.length with
    | none => none
    | some _ => some (draw_row_output lines hh ww msg s i)
  else some (draw_row_output lines hh ww msg s i)

/-! ## Sample states used by witnesses -/

/-- A small concrete editor state used by several witness theorems. -/
def sampleA : Editor :=
  { running := true, options_mode := false, scroll_position := 0,
    cursor := ⟨2, 0⟩, lines := [['a', 'b', 'c'], ['d', 'e']],
    save_count := 0, height := 10, width := 80 }

/-- A concrete editor state whose cursor is at the true document start. -/
def sampleStart : Editor :=
  { running := true, options_mode := false, scroll_position := 0,
    cursor := ⟨0, 0⟩, lines := [['a']],
    save_count := 0, height := 10, width := 80 }

/-! ## List surgery lemmas

Positional lemmas about `getD` / `set` / `insertIdx` / `eraseIdx` at an index
given by the length of a prefix, used to track the document's line list
through `process_input`. -/

theorem getD_append_at {α : Type} (A : List α) (l : α) (B : List α) (d : α)
    {i : Nat} (h : i = A.length) : (A ++ l :: B).getD i d = l := by
  subst h
  induction A with
  | nil => rfl
  | cons a as ih => simpa using ih

theorem getD_append_at_succ {α : Type} (A : List α) (a b : α) (B : List α) (d : α)
    {i : Nat} (h : i = A.length + 1) : (A ++ a :: b :: B).getD i d = b := by
  have : A ++ a :: b :: B = (A ++ [a]) ++ b :: B := by simp
  rw [this, getD_append_at (A ++ [a]) b B d (by simpa using h)]

theorem set_append_at {α : Type} (A : List α) (l : α) (B : List α) (v : α)
    {i : Nat} (h : i = A.length) : (A ++ l :: B).set i v = A ++ v :: B := by
  subst h
  induction A with
  | nil => rfl
  | cons a as ih => simp [ih]

theorem insertIdx_append_at_succ {α : Type} (A : List α) (a : α) (B : List α) (v : α)
    {i : Nat} (h : i = A.length + 1) :
    List.insertIdx i v (A ++ a :: B) = A ++ a :: v :: B := by
  subst h
  induction A with
  | nil => rfl
  | cons x as ih => simpa using ih

theorem eraseIdx_append_at {α : Type} (A : List α) (l : α) (B : List α)
    {i : Nat} (h : i = A.length) : (A ++ l :: B).eraseIdx i = A ++ B := by
  subst h
  induction A with
  | nil => rfl
  | cons a as ih => simpa using ih

theorem eraseIdx_append_at_succ {α : Type} (A : List α) (a b : α) (B : List α)
    {i : Nat} (h : i = A.length + 1) :
    (A ++ a :: b :: B).eraseIdx i = A ++ a :: B := by
  have : A ++ a :: b :: B = (A ++ [a]) ++ b :: B := by simp
  have h2 : A ++ a :: B = (A ++ [a]) ++ B := by simp
  rw [this, h2, eraseIdx_append_at (A ++ [a]) b B (by simpa using h)]

/-- Decompose a list at a valid index `n` into a prefix of length `n`, the
element there (as `getD`), and a suffix. -/
theorem exists_decomp {α : Type} (L : List α) (n : Nat) (d : α) (h : n < L.length) :
    ∃ A lmid B, L = A ++ lmid :: B ∧ A.length = n ∧ L.getD n d = lmid := by
  induction L generalizing n with
  | nil => simp at h
  | cons c t ih =>
    cases n with
    | zero => exact ⟨[], c, t, rfl, rfl, rfl⟩
    | succ m =>
      obtain ⟨A, lmid, B, hL, hA, hg⟩ := ih m (by simpa using h)
      exact ⟨c :: A, lmid, B, by simp [hL], by simp [hA], by simpa using hg⟩

/-! ## Document: save (C3) -/

theorem join_newline_spec_cons (a : List Char) (as : List (List Char)) :
    join_newline_spec (a :: as) = a ++ save_loop as true := by
  induction as generalizing a with
  | nil => simp [join_newline_spec, save_loop]
  | cons b bs ih => simp [join_newline_spec, save_loop, ih b]

/-- C3: `Document::save` writes exactly the lines joined by single `'\n'`
separators with no trailing newline: the loop of `document.rs` lines 42-49
produces the same character sequence as the spec's "join with newline, no
trailing newline" description. -/
theorem c3_save_writes_join (L : List (List Char)) :
    save_output L = join_newline_spec L := by
  cases L with
  | nil => rfl
  | cons a as => rw [join_newline_spec_cons]; simp [save_output, save_loop]

/-! ## Document: load (C5) -/

/-- C5: loading a nonexistent path, or a path whose contents are empty, yields
exactly one line, the empty string (and `from_file_lines` is total there, the
model of "construction succeeds rather than failing the process"). -/
theorem c5_missing_or_empty (path_exists : Bool) (contents : List Char)
    (h : path_exists = false ∨ contents = []) :
    from_file_lines path_exists contents = [[]] := by
  rcases h with h | h
  · subst h; rfl
  · subst h; cases path_exists <;> rfl

theorem c5_missing_or_empty_witness :
    ((false = false ∨ (['x'] : List Char) = []) ∧ from_file_lines false ['x'] = [[]]) ∧
    (((true = false) ∨ ([] : List Char) = []) ∧ from_file_lines true [] = [[]]) :=
  ⟨⟨Or.inl rfl, c5_missing_or_empty false ['x'] (Or.inl rfl)⟩,
   ⟨Or.inr rfl, c5_missing_or_empty true [] (Or.inr rfl)⟩⟩

/-! ## Options mode (C6) -/

/-- C6: in options mode, `'q'` only clears `running` (no save), `'s'` saves
exactly once, returns to editing and leaves `running` as it was, `'a'` saves
exactly once and clears `running`, `Esc` returns to editing, and every other
key changes nothing (`process_options`, `editor.rs` lines 186-203). -/
theorem c6_options_dispatch (e : Editor) :
    process_options e (Key.char 'q') = { e with running := false } ∧
    process_options e (Key.char 's') =
      { e with save_count := e.save_count + 1, options_mode := false } ∧
    process_options e (Key.char 'a') =
      { e with save_count := e.save_count + 1, options_mode := false,
               running := false } ∧
    process_options e Key.esc = { e with options_mode := false } ∧
    (∀ c : Char, c ≠ 'q' → c ≠ 's' → c ≠ 'a' →
      process_options e (Key.char c) = e) ∧
    (∀ k : Key, (∀ c, k ≠ Key.char c) → k ≠ Key.esc → process_options e k = e) := by
  refine ⟨rfl, rfl, rfl, rfl, ?_, ?_⟩
  · intro c hq hs ha
    simp [process_options, hq, hs, ha]
  · intro k hc he
    cases k with
    | char c => exact absurd rfl (hc c)
    | esc => exact absurd rfl he
    | _ => rfl

theorem c6_options_dispatch_witness :
    process_options sampleA (Key.char 'x') = sampleA ∧
    process_options sampleA Key.backspace = sampleA :=
  ⟨(c6_options_dispatch sampleA).2.2.2.2.1 'x' (by decide) (by decide) (by decide),
   (c6_options_dispatch sampleA).2.2.2.2.2 Key.backspace
     (fun c h => Key.noConfusion h) (by decide)⟩

/-! ## Backspace at document start (C8) -/

/-- C8: Backspace with the cursor at the true document start (`x = 0`,
`y = 0`, `scroll_offset = 0`) is a complete no-op: the whole editor state
(lines, cursor, scroll offset, mode, everything) is unchanged. -/
theorem c8_backspace_at_start (e : Editor)
    (hx : e.cursor.x = 0) (hy : e.cursor.y = 0) (hs : e.scroll_position = 0) :
    process_input e Key.backspace = e := by
  obtain ⟨r, m, s, ⟨x, y⟩, L, k, hh, ww⟩ := e
  simp only at hx hy hs
  subst hx hy hs
  simp [process_input]

theorem c8_backspace_at_start_witness :
    (sampleStart.cursor.x = 0 ∧ sampleStart.cursor.y = 0 ∧
      sampleStart.scroll_position = 0) ∧
    process_input sampleStart Key.backspace = sampleStart :=
  ⟨⟨rfl, rfl, rfl⟩, c8_backspace_at_start sampleStart rfl rfl rfl⟩

/-! ## Newline / backspace evaluation lemmas (towards C1) -/

/-- Evaluating the Enter arm of `process_input` on a line list decomposed
around the cursor's line: the line splits into its first `x` characters and
the rest, and either the scroll offset or the screen row advances. -/
theorem process_input_enter (r m : Bool) (s x y k hh ww : Nat)
    (A B : List (List Char)) (l : List Char) (hA : A.length = y + s) :
    process_input ⟨r, m, s, ⟨x, y⟩, A ++ l :: B, k, hh, ww⟩ (Key.char '\n') =
    if y + 1 > hh - 2 then
      ⟨r, m, s + 1, ⟨0, y⟩, A ++ l.take x :: l.drop x :: B, k, hh, ww⟩
    else
      ⟨r, m, s, ⟨0, y + 1⟩, A ++ l.take x :: l.drop x :: B, k, hh, ww⟩ := by
  have h1 : (A ++ l :: B).getD (y + s) [] = l := getD_append_at A l B [] hA.symm
  have h2 : (A ++ l :: B).set (y + s) (l.take x) = A ++ l.take x :: B :=
    set_append_at A l B (l.take x) hA.symm
  have h3 : List.insertIdx (y + s + 1) (l.drop x) (A ++ l.take x :: B) =
      A ++ l.take x :: l.drop x :: B :=
    insertIdx_append_at_succ A (l.take x) B (l.drop x) (by omega)
  simp only [process_input, h1, h2, h3]
  split_ifs <;> rfl

/-- Evaluating the Backspace arm of `process_input` with the cursor at the
start of a line that has a predecessor (`A.length + 1 = y + s`): the two lines
around the cursor merge, the cursor lands at the end of the former previous
line, and the scroll offset absorbs the move exactly when the cursor sat on
the top screen row of a scrolled view. -/
theorem process_input_backspace_merge (r m : Bool) (s y k hh ww : Nat)
    (A B : List (List Char)) (a b : List Char) (hA : A.length + 1 = y + s) :
    process_input ⟨r, m, s, ⟨0, y⟩, A ++ a :: b :: B, k, hh, ww⟩ Key.backspace =
    if s > 0 ∧ y = 0 then
      ⟨r, m, s - 1, ⟨a.length, 0⟩, A ++ (a ++ b) :: B, k, hh, ww⟩
    else
      ⟨r, m, s, ⟨a.length, y - 1⟩, A ++ (a ++ b) :: B, k, hh, ww⟩ := by
  have hline : (A ++ a :: b :: B).getD (y + s) [] = b :=
    getD_append_at_succ A a b B [] hA.symm
  have hprev : (A ++ a :: b :: B).getD (y + s - 1) [] = a :=
    getD_append_at A a (b :: B) [] (by omega)
  simp only [process_input, hline, hprev]
  split_ifs with hx0 hor hcond hcond' <;> try omega
  · obtain ⟨hs0, hy0⟩ := hcond'
    subst hy0
    rw [eraseIdx_append_at A a (b :: B) (by omega),
      set_append_at A b B (a ++ b) (by omega)]
  · rw [eraseIdx_append_at_succ A a b B (by omega),
      set_append_at A a B (a ++ b) (by omega)]

/-- Pressing Enter then Backspace on a state whose line list is decomposed
around the cursor's line restores the line list, the cursor offset `x`, and
the absolute line index. -/
theorem enter_backspace_core (r m : Bool) (s x y k hh ww : Nat)
    (A B : List (List Char)) (l : List Char)
    (hA : A.length = y + s) (hx : x ≤ l.length) :
    (process_input
        (process_input ⟨r, m, s, ⟨x, y⟩, A ++ l :: B, k, hh, ww⟩ (Key.char '\n'))
        Key.backspace).lines = A ++ l :: B ∧
    (process_input
        (process_input ⟨r, m, s, ⟨x, y⟩, A ++ l :: B, k, hh, ww⟩ (Key.char '\n'))
        Key.backspace).cursor.x = x ∧
    (process_input
        (process_input ⟨r, m, s, ⟨x, y⟩, A ++ l :: B, k, hh, ww⟩ (Key.char '\n'))
        Key.backspace).cursor.y +
      (process_input
        (process_input ⟨r, m, s, ⟨x, y⟩, A ++ l :: B, k, hh, ww⟩ (Key.char '\n'))
        Key.backspace).scroll_position = y + s := by
  have hlen : (l.take x).length = x := by
    simp [List.length_take]; omega
  have hmerge : l.take x ++ l.drop x = l := List.take_append_drop x l
  rw [process_input_enter r m s x y k hh ww A B l hA]
  by_cases hb : y + 1 > hh - 2
  · rw [if_pos hb,
      process_input_backspace_merge r m (s + 1) y k hh ww A B (l.take x) (l.drop x)
        (by omega)]
    by_cases hsy : s + 1 > 0 ∧ y = 0
    · rw [if_pos hsy]
      refine ⟨by simp [hmerge], by simp [hlen], ?_⟩
      obtain ⟨-, hy⟩ := hsy
      simp [hy]
    · rw [if_neg hsy]
      refine ⟨by simp [hmerge], by simp [hlen], ?_⟩
      have hy : y > 0 := by
        rcases Nat.eq_zero_or_pos y with h0 | h0
        · exact absurd ⟨by omega, h0⟩ hsy
        · exact h0
      simp only
      omega
  · rw [if_neg hb,
      process_input_backspace_merge r m s (y + 1) k hh ww A B (l.take x) (l.drop x)
        (by omega)]
    rw [if_neg (by omega)]
    refine ⟨by simp [hmerge], by simp [hlen], ?_⟩
    simp only
    omega

/-- C1: from any valid cursor position (the addressed line exists and `x` is
at most its length), pressing Enter and then immediately Backspace restores
the original line sequence, the cursor offset `x`, and the cursor's absolute
line index `y + scroll_offset`. -/
theorem c1_enter_backspace_inverse (e : Editor)
    (hidx : e.cursor.y + e.scroll_position < e.lines.length)
    (hx : e.cursor.x ≤ (e.lines.getD (e.cursor.y + e.scroll_position) []).length) :
    (process_input (process_input e (Key.char '\n')) Key.backspace).lines = e.lines ∧
    (process_input (process_input e (Key.char '\n')) Key.backspace).cursor.x =
      e.cursor.x ∧
    (process_input (process_input e (Key.char '\n')) Key.backspace).cursor.y +
      (process_input (process_input e (Key.char '\n')) Key.backspace).scroll_position =
      e.cursor.y + e.scroll_position := by
  obtain ⟨r, m, s, ⟨x, y⟩, L, k, hh, ww⟩ := e
  simp only at hidx hx ⊢
  obtain ⟨A, lmid, B, hL, hA, hg⟩ := exists_decomp L (y + s) [] hidx
  rw [hg] at hx
  subst hL
  exact enter_backspace_core r m s x y k hh ww A B lmid hA hx

theorem c1_enter_backspace_inverse_witness :
    (sampleA.cursor.y + sampleA.scroll_position < sampleA.lines.length ∧
      sampleA.cursor.x ≤
        (sampleA.lines.getD (sampleA.cursor.y + sampleA.scroll_position) []).length) ∧
    ((process_input (process_input sampleA (Key.char '\n')) Key.backspace).lines =
        sampleA.lines ∧
      (process_input (process_input sampleA (Key.char '\n')) Key.backspace).cursor.x =
        sampleA.cursor.x ∧
      (process_input (process_input sampleA (Key.char '\n')) Key.backspace).cursor.y +
        (process_input (process_input sampleA (Key.char '\n'))
            Key.backspace).scroll_position =
        sampleA.cursor.y + sampleA.scroll_position) :=
  ⟨⟨by decide, by decide⟩,
   c1_enter_backspace_inverse sampleA (by decide) (by decide)⟩

/-! ## Character insertion (C7) -/

theorem length_insert_char (l : List Char) (x : Nat) (c : Char) (hx : x ≤ l.length) :
    (l.take x ++ c :: l.drop x).length = l.length + 1 := by
  simp [List.length_take, List.length_drop]
  omega

theorem get?_insert_self (l : List Char) (x : Nat) (c : Char) (hx : x ≤ l.length) :
    (l.take x ++ c :: l.drop x).get? x = some c := by
  induction l generalizing x with
  | nil =>
    have : x = 0 := by simpa using hx
    subst this; rfl
  | cons a t ih =>
    cases x with
    | zero => rfl
    | succ n => simpa using ih n (by simpa using hx)

theorem get?_insert_lt (l : List Char) (x i : Nat) (c : Char)
    (hi : i < x) (hx : x ≤ l.length) :
    (l.take x ++ c :: l.drop x).get? i = l.get? i := by
  induction l generalizing x i with
  | nil =>
    simp at hx
    omega
  | cons a t ih =>
    cases x with
    | zero => omega
    | succ n =>
      cases i with
      | zero => rfl
      | succ m => simpa using ih n m (by omega) (by simpa using hx)

theorem get?_insert_ge (l : List Char) (x i : Nat) (c : Char)
    (hxi : x ≤ i) (hn : i < l.length) :
    (l.take x ++ c :: l.drop x).get? (i + 1) = l.get? i := by
  induction l generalizing x i with
  | nil => simp at hn
  | cons a t ih =>
    cases x with
    | zero => simp
    | succ n =>
      cases i with
      | zero => omega
      | succ m => simpa using ih n m (by omega) (by simpa using hn)

theorem get?_mid_ne {α : Type} (A : List α) (u v : α) (B : List α) (j : Nat)
    (hj : j ≠ A.length) : (A ++ u :: B).get? j = (A ++ v :: B).get? j := by
  induction A generalizing j with
  | nil =>
    cases j with
    | zero => exact absurd rfl hj
    | succ m => rfl
  | cons a as ih =>
    cases j with
    | zero => rfl
    | succ m => simpa using ih m (by simpa using hj)

/-- Evaluating the generic-character arm of `process_input` on a decomposed
line list: the cursor's line receives `c` at offset `x` and the cursor column
advances. -/
theorem process_input_char (r m : Bool) (s x y k hh ww : Nat)
    (A B : List (List Char)) (l : List Char) (c : Char)
    (hc : c ≠ '\n') (hA : A.length = y + s) :
    process_input ⟨r, m, s, ⟨x, y⟩, A ++ l :: B, k, hh, ww⟩ (Key.char c) =
    ⟨r, m, s, ⟨x + 1, y⟩, A ++ (l.take x ++ c :: l.drop x) :: B, k, hh, ww⟩ := by
  have h1 : (A ++ l :: B).getD (y + s) [] = l := getD_append_at A l B [] hA.symm
  have h2 : (A ++ l :: B).set (y + s) (l.take x ++ c :: l.drop x) =
      A ++ (l.take x ++ c :: l.drop x) :: B :=
    set_append_at A l B (l.take x ++ c :: l.drop x) hA.symm
  simp only [process_input, h1, h2, if_neg hc]

/-- C7: inserting a printable character `c` at a valid cursor offset `x`
(with `x ≤ n`, `n` the current line's length) produces a current line of
length `n + 1` whose `x`-th character is `c`, keeps every other character of
that line in place and in order, advances the cursor to `x + 1`, and leaves
every other document line unchanged. -/
theorem c7_insert_position_exact (e : Editor) (c : Char)
    (hc : c ≠ '\n')
    (hidx : e.cursor.y + e.scroll_position < e.lines.length)
    (hx : e.cursor.x ≤ (e.lines.getD (e.cursor.y + e.scroll_position) []).length) :
    ((process_input e (Key.char c)).lines.getD
        (e.cursor.y + e.scroll_position) []).length =
      (e.lines.getD (e.cursor.y + e.scroll_position) []).length + 1 ∧
    ((process_input e (Key.char c)).lines.getD
        (e.cursor.y + e.scroll_position) []).get? e.cursor.x = some c ∧
    (∀ i, i < e.cursor.x →
      ((process_input e (Key.char c)).lines.getD
          (e.cursor.y + e.scroll_position) []).get? i =
        (e.lines.getD (e.cursor.y + e.scroll_position) []).get? i) ∧
    (∀ i, e.cursor.x ≤ i →
      i < (e.lines.getD (e.cursor.y + e.scroll_position) []).length →
      ((process_input e (Key.char c)).lines.getD
          (e.cursor.y + e.scroll_position) []).get? (i + 1) =
        (e.lines.getD (e.cursor.y + e.scroll_position) []).get? i) ∧
    (process_input e (Key.char c)).cursor.x = e.cursor.x + 1 ∧
    (∀ j, j ≠ e.cursor.y + e.scroll_position →
      (process_input e (Key.char c)).lines.get? j = e.lines.get? j) := by
  obtain ⟨r, m, s, ⟨x, y⟩, L, k, hh, ww⟩ := e
  simp only at hidx hx ⊢
  obtain ⟨A, lmid, B, hL, hA, hg⟩ := exists_decomp L (y + s) [] hidx
  rw [hg] at hx
  subst hL
  rw [process_input_char r m s x y k hh ww A B lmid c hc hA]
  have hnew : (A ++ (lmid.take x ++ c :: lmid.drop x) :: B).getD (y + s) [] =
      lmid.take x ++ c :: lmid.drop x :=
    getD_append_at A (lmid.take x ++ c :: lmid.drop x) B [] hA.symm
  simp only [hnew, hg]
  refine ⟨length_insert_char lmid x c hx, get?_insert_self lmid x c hx, ?_, ?_,
    by trivial, ?_⟩
  · intro i hi
    exact get?_insert_lt lmid x i c hi hx
  · intro i hxi hn
    exact get?_insert_ge lmid x i c hxi hn
  · intro j hj
    exact get?_mid_ne A (lmid.take x ++ c :: lmid.drop x) lmid B j (by omega)

theorem c7_insert_position_exact_witness :
    (('z' : Char) ≠ '\n' ∧
      sampleA.cursor.y + sampleA.scroll_position < sampleA.lines.length ∧
      sampleA.cursor.x ≤
        (sampleA.lines.getD (sampleA.cursor.y + sampleA.scroll_position) []).length) ∧
    ((process_input sampleA (Key.char 'z')).lines.getD
        (sampleA.cursor.y + sampleA.scroll_position) []).length =
      (sampleA.lines.getD (sampleA.cursor.y + sampleA.scroll_position) []).length + 1 ∧
    ((process_input sampleA (Key.char 'z')).lines.getD
        (sampleA.cursor.y + sampleA.scroll_position) []).get? sampleA.cursor.x =
      some 'z' ∧
    (process_input sampleA (Key.char 'z')).cursor.x = sampleA.cursor.x + 1 :=
  ⟨⟨by decide, by decide, by decide⟩,
   (c7_insert_position_exact sampleA 'z' (by decide) (by decide) (by decide)).1,
   (c7_insert_position_exact sampleA 'z' (by decide) (by decide) (by decide)).2.1,
   (c7_insert_position_exact sampleA 'z' (by decide) (by decide) (by decide)).2.2.2.2.1⟩

/-! ## Vertical cursor movement (C2)

The Up arm and the row-advancing Down arm of `arrow_move` clamp `x` to the
new current line's length, but the Down arm that advances the scroll offset
(`editor.rs` lines 226-228) performs no clamping: `x` is left unchanged and
can exceed the new current line's length.  The state below is a valid editor
state (cursor inside the addressed line, line index in bounds, cursor on the
last editable screen row) on which Down takes exactly that branch. -/

/-- A valid editor state on the last editable screen row (`y = height - 2`),
on a line of length 3, with a shorter (empty) line below. -/
def c2_state : Editor :=
  { running := true, options_mode := false, scroll_position := 0,
    cursor := ⟨3, 3⟩, lines := [[], [], [], ['a', 'b', 'c'], []],
    save_count := 0, height := 5, width := 80 }

/-- C2: evaluating the code at the failing input.  `c2_state` satisfies the
claimed preconditions (valid cursor and scroll state), yet after Down the
scroll offset has advanced (the "last editable screen row" branch) and the
cursor offset `x = 3` strictly exceeds the new current line's length 0 — the
claimed clamp `x ≤ length(current line)` fails in this branch. -/
theorem c2_down_scroll_leaves_x_unclamped :
    (c2_state.cursor.y + c2_state.scroll_position < c2_state.lines.length ∧
      c2_state.cursor.x ≤
        (c2_state.lines.getD (c2_state.cursor.y + c2_state.scroll_position) []).length ∧
      c2_state.cursor.y = c2_state.height - 2) ∧
    (arrow_move c2_state Key.down).scroll_position = c2_state.scroll_position + 1 ∧
    (arrow_move c2_state Key.down).cursor.x = 3 ∧
    ((arrow_move c2_state Key.down).lines.getD
        ((arrow_move c2_state Key.down).cursor.y +
          (arrow_move c2_state Key.down).scroll_position) []).length = 0 ∧
    ¬((arrow_move c2_state Key.down).cursor.x ≤
        ((arrow_move c2_state Key.down).lines.getD
          ((arrow_move c2_state Key.down).cursor.y +
            (arrow_move c2_state Key.down).scroll_position) []).length) := by
  decide

/-! ## Save/load round-trip (C4)

Rust's `str::lines` treats `"\r\n"` as a single line ending: a piece that was
terminated by `'\n'` loses one trailing `'\r'`.  Saving therefore does not
round-trip a non-final line that ends in a carriage return, even though such
a line is newline-free. -/

theorem split_on_nl_ne_nil (s : List Char) : split_on_nl s ≠ [] := by
  cases s with
  | nil => simp [split_on_nl]
  | cons c cs =>
    by_cases hc : c = '\n'
    · simp [split_on_nl, hc]
    · simp only [split_on_nl, if_neg hc]
      cases split_on_nl cs <;> simp

theorem split_on_nl_no_nl (l : List Char) (hl : '\n' ∉ l) : split_on_nl l = [l] := by
  induction l with
  | nil => rfl
  | cons c cs ih =>
    have hc : c ≠ '\n' := fun h => hl (h ▸ List.mem_cons_self c cs)
    have hcs : '\n' ∉ cs := fun h => hl (List.mem_cons_of_mem c h)
    simp [split_on_nl, if_neg hc, ih hcs]

theorem split_on_nl_append (l t : List Char) (hl : '\n' ∉ l) :
    split_on_nl (l ++ '\n' :: t) = l :: split_on_nl t := by
  induction l with
  | nil => simp [split_on_nl]
  | cons c cs ih =>
    have hc : c ≠ '\n' := fun h => hl (h ▸ List.mem_cons_self c cs)
    have hcs : '\n' ∉ cs := fun h => hl (List.mem_cons_of_mem c h)
    simp [split_on_nl, if_neg hc, ih hcs]

theorem rust_lines_cons (l t : List Char) (hl : '\n' ∉ l) :
    rust_lines (l ++ '\n' :: t) = strip_cr l :: rust_lines t := by
  have hsplit : split_on_nl (l ++ '\n' :: t) = l :: split_on_nl t :=
    split_on_nl_append l t hl
  cases hps : split_on_nl t with
  | nil => exact absurd hps (split_on_nl_ne_nil t)
  | cons p ps => simp [rust_lines, hsplit, hps]

theorem rust_lines_single (l : List Char) (hl : '\n' ∉ l) (hne : l ≠ []) :
    rust_lines l = [l] := by
  simp [rust_lines, split_on_nl_no_nl l hl, hne]

theorem save_output_cons_cons (a b : List Char) (bs : List (List Char)) :
    save_output (a :: b :: bs) = a ++ '\n' :: save_output (b :: bs) := by
  simp [save_output, save_loop]

/-- Saving then re-splitting recovers the lines, provided every line is
non-empty and newline-free and no line except possibly the last ends in a
carriage return. -/
theorem rust_lines_save_output :
    ∀ L : List (List Char), L ≠ [] →
      (∀ l ∈ L, l ≠ [] ∧ '\n' ∉ l) →
      (∀ l ∈ L.dropLast, l.getLast? ≠ some '\r') →
      rust_lines (save_output L) = L
  | [], hne, _, _ => absurd rfl hne
  | [a], _, hl, _ => by
    obtain ⟨ha_ne, ha_nl⟩ := hl a (List.mem_cons_self a [])
    have : save_output [a] = a := by simp [save_output, save_loop]
    rw [this, rust_lines_single a ha_nl ha_ne]
  | a :: b :: bs, _, hl, hcr => by
    obtain ⟨ha_ne, ha_nl⟩ := hl a (List.mem_cons_self a (b :: bs))
    have hacr : a.getLast? ≠ some '\r' := by
      refine hcr a ?_
      rw [List.dropLast_cons₂]
      exact List.mem_cons_self a _
    have hstrip : strip_cr a = a := by simp [strip_cr, hacr]
    rw [save_output_cons_cons, rust_lines_cons a _ ha_nl, hstrip,
      rust_lines_save_output (b :: bs) (by simp)
        (fun l hm => hl l (List.mem_cons_of_mem a hm))
        (fun l hm => by
          refine hcr l ?_
          rw [List.dropLast_cons₂]
          exact List.mem_cons_of_mem a hm)]

/-- The concrete lines refuting C4 as stated: both are non-empty and contain
no newline character, but the first ends in a carriage return. -/
def c4_bad_lines : List (List Char) := [['a', '\r'], ['b']]

/-- C4 counterexample: the line sequence `["a\r", "b"]` is non-empty and its
elements are non-empty and newline-free, yet saving and re-loading yields
`["a", "b"]` — the `"\r\n"` produced by save is parsed back as a single line
ending, so the trailing carriage return of the first line is lost. -/
theorem c4_roundtrip_fails_on_cr :
    ((['a', '\r'] : List Char) ≠ [] ∧ ('\n' : Char) ∉ (['a', '\r'] : List Char) ∧
      (['b'] : List Char) ≠ [] ∧ ('\n' : Char) ∉ (['b'] : List Char)) ∧
    from_file_lines true (save_output c4_bad_lines) = [['a'], ['b']] ∧
    from_file_lines true (save_output c4_bad_lines) ≠ c4_bad_lines := by
  decide

/-- C4 amended: for every non-empty sequence of non-empty, newline-free
strings of which none except possibly the last ends in a carriage return,
saving and loading the written file yields exactly the original lines. -/
theorem c4_save_load_roundtrip (L : List (List Char)) (hne : L ≠ [])
    (hl : ∀ l ∈ L, l ≠ [] ∧ '\n' ∉ l)
    (hcr : ∀ l ∈ L.dropLast, l.getLast? ≠ some '\r') :
    from_file_lines true (save_output L) = L := by
  have h := rust_lines_save_output L hne hl hcr
  simp [from_file_lines, h, hne]

theorem c4_save_load_roundtrip_witness :
    from_file_lines true (save_output [['a'], ['b'], ['c', 'd']]) =
      [['a'], ['b'], ['c', 'd']] :=
  c4_save_load_roundtrip [['a'], ['b'], ['c', 'd']] (by decide) (by decide) (by decide)

/-! ## Welcome banner (C9, C10)

The draw loop prints the line text or the `'~'` filler (with its line
terminator) first, and only afterwards, in the same iteration, the banner —
and it does so for the row index `height / 2 - 2`, two rows above the
vertical half of the viewport (the source comments call the adjustment
arbitrary). -/

/-- A concrete banner text of the shape `format!` produces in `editor.rs`
line 97 (the crate version underneath `env!` is not part of the sources;
every banner theorem is parametric in the message, this constant only feeds
the concrete counterexample and witnesses). -/
def banner_message_sample : List Char := "BIM (Bad vIM) - version 0.1.0".toList

/-- C9 counterexample: rendering a Document that is exactly one empty line in
a 10-row, 80-column terminal, the banner is emitted in the iteration for row
3 (= 10/2 - 2) *after* that row's `'~'` filler and its line terminator — not
replacing it — while the vertical-center rows 4 and 5 receive only the bare
filler and no banner. -/
theorem c9_banner_not_replacing_filler :
    draw_row_output [[]] 10 80 banner_message_sample 0 3 =
      ['~', '\r', '\n'] ++ (List.replicate 25 ' ' ++ banner_message_sample ++ ['\r']) ∧
    draw_row_output [[]] 10 80 banner_message_sample 0 4 = ['~', '\r', '\n'] ∧
    draw_row_output [[]] 10 80 banner_message_sample 0 5 = ['~', '\r', '\n'] := by
  decide

/-- C9 amended: when the Document is exactly one empty line, the iteration
for the (scrolled) row `height / 2 - 2` — not the vertical-center row — first
prints the `'~'` filler with its line terminator and then, in addition,
prints the banner: spaces amounting to half of (width − banner length) when
that difference is positive, the banner text, and a carriage return.  (The
width bound keeps the statement inside the panic-free region of the padding
subtraction, see C10.) -/
theorem c9_banner_emission (hh ww : Nat) (msg : List Char) (s i : Nat)
    (hrow : i + s = hh / 2 - 2) (hge : 1 ≤ i + s) (_hwd : msg.length ≤ ww) :
    draw_row_output [[]] hh ww msg s i =
      ['~', '\r', '\n'] ++
        ((if 0 < ww - msg.length then List.replicate ((ww - msg.length) / 2) ' '
          else []) ++ msg ++ ['\r']) := by
  simp only [draw_row_output, banner_emission]
  rw [if_neg (by simp; omega), if_pos ⟨⟨by simp, by simp⟩, hrow⟩]

theorem c9_banner_emission_witness :
    ((3 + 0 = 10 / 2 - 2 ∧ 1 ≤ 3 + 0 ∧ banner_message_sample.length ≤ 80) ∧
      draw_row_output [[]] 10 80 banner_message_sample 0 3 =
        ['~', '\r', '\n'] ++
          ((if 0 < 80 - banner_message_sample.length then
              List.replicate ((80 - banner_message_sample.length) / 2) ' '
            else []) ++ banner_message_sample ++ ['\r'])) :=
  ⟨⟨by decide, by decide, by decide⟩,
   c9_banner_emission 10 80 banner_message_sample 0 3 (by decide) (by decide) (by decide)⟩

/-- C10: the padding subtraction `width - message.len()` happens before the
`padding > 0` guard, so a draw iteration is total exactly on widths at least
the banner length: the checked draw iteration returns `none` (the source
panics on the underflowing `usize` subtraction) precisely when the document
is a single empty line, the row is the banner row `height / 2 - 2`, and the
width is smaller than the banner message's length. -/
theorem c10_draw_padding_underflow (lines : List (List Char)) (hh ww : Nat)
    (msg : List Char) (s i : Nat) :
    draw_row_checked lines hh ww msg s i = none ↔
      ((lines.length ≤ 1 ∧ (lines.getD 0 []).length = 0) ∧
        i + s = hh / 2 - 2 ∧ ww < msg.length) := by
  simp only [draw_row_checked, usize_sub]
  by_cases hb : (lines.length ≤ 1 ∧ (lines.getD 0 []).length = 0) ∧ i + s = hh / 2 - 2
  · rw [if_pos hb]
    by_cases hw : msg.length ≤ ww
    · rw [if_pos hw]
      simp only [reduceCtorEq, false_iff]
      intro hcon
      omega
    · rw [if_neg hw]
      simp only [true_iff]
      exact ⟨hb.1, hb.2, by omega⟩
  · rw [if_neg hb]
    simp only [reduceCtorEq, false_iff]
    intro hcon
    exact hb ⟨hcon.1, hcon.2.1⟩

end Bim
